import Mathlib

/-!
Shallow embedding of the FrankenMSA MSA-manipulation engine.

An alignment table (pandas `DataFrame` with a `header` and a `sequence`
column) is modelled as a list of rows; each row carries the two string
columns the specification's claims are about.  Auxiliary numeric columns
play no role in any claim and are not modelled.  Python floats that hold
gap/identity thresholds are modelled as exact rationals (`ℚ`); the only
float subtlety the source relies on — `0/0` producing `NaN`, and `NaN`
comparing false under `<=`, `<` and `>=` — is modelled explicitly at each
division site.
-/

namespace FrankenMSA

/-- A row of an alignment table: the `header` and `sequence` columns of the
pandas DataFrame. -/
structure Row where
  header : String
  sequence : String
deriving DecidableEq, Repr

/-- An alignment table: an ordered list of rows (a pandas DataFrame with a
default RangeIndex). -/
abbrev Table := List Row

/- Error message constants (the strings passed to `raise ValueError(...)`
and friends in the source). -/

def errGapRange : String := "allowed_gaps_faction must be between 0 and 1."

def errIdentityRange : String := "identity_threshold must be between 0 and 1."

def errMethod : String := "method must be keep or remove."

def errEmptyIloc : String := "IndexError: positional indexer out-of-bounds"

def errZeroDiv : String := "ZeroDivisionError: integer division by zero"

def errNaNLength : String := "TypeError: sequence_length is NaN on an empty table"

def errPrecheck : String := "The MSA must contain at least 2 sequences to perform clustering."

def errColumnLengths : String := "All arrays must be of the same length"

def errEncoding : String := "Unknown sequence encoding method"

/-- `msatools.filter_gaps`, line 229: `gap_count = df["sequence"].str.count("-")`.
Counting a 1-character pattern is counting occurrences of that character. -/
def countGaps (s : String) : Nat :=
  s.data.countP (fun c => c = '-')

/-- The row predicate of `msatools.filter_gaps`, lines 229-232:
`gap_fraction = gap_count / sequence_length` followed by the boolean mask
`gap_fraction <= allowed_gaps_faction`.  For an empty sequence the float
division is `0/0 = NaN`, and `NaN <= t` is false, so the row is dropped. -/
def keepRowGaps (t : ℚ) (r : Row) : Bool :=
  if r.sequence.length = 0 then false
  else decide ((countGaps r.sequence : ℚ) / (r.sequence.length : ℚ) ≤ t)

/-- `msatools.filter_gaps` (lines 206-233).  The `sequence` column is part of
the `Row` type, so the column-existence check cannot fail; the range check on
`allowed_gaps_faction` raises `ValueError`, modelled as `Except.error`.
The boolean-mask selection `df[gap_fraction <= t]` builds a new DataFrame
containing exactly the rows whose mask entry is true, in order. -/
def filter_gaps (df : Table) (t : ℚ) : Except String Table :=
  if 0 ≤ t ∧ t ≤ 1 then .ok (df.filter (keepRowGaps t))
  else .error errGapRange

/-- The identity count as the source actually computes it
(`msatools.sort_identity` lines 296-299 and `msatools.filter_identity`
lines 340-344):

  `q = df.iloc[[0]]["sequence"]` is a one-element pandas *Series* whose sole
  value is the query string, and the per-row lambda evaluates
  `sum(a == b for a, b in zip(q, x))`.  Iterating the Series yields the one
  query string, and iterating the row string `x` yields 1-character strings,
  so `zip` produces at most one pair: the whole query string paired with the
  first character of `x`.  The count is therefore 1 exactly when the query
  string equals the 1-character string `x[0]`, else 0. -/
def seriesZipIdentityCount (q x : String) : Nat :=
  (List.zip [q.data] (x.data.map (fun c => [c]))).countP
    (fun p => p.1 = p.2)

/-- The row predicate of `msatools.filter_identity`, lines 342-352:
`identity_fraction = identity_count / sequence_length` compared against the
threshold (`>=` for method `keep`, `<` for method `remove`).  For an empty
sequence the division is `0/0 = NaN` and both comparisons are false. -/
def keepRowIdentity (q : String) (t : ℚ) (keepMode : Bool) (r : Row) : Bool :=
  if r.sequence.length = 0 then false
  else if keepMode then
    decide ((seriesZipIdentityCount q r.sequence : ℚ) / (r.sequence.length : ℚ) ≥ t)
  else
    decide ((seriesZipIdentityCount q r.sequence : ℚ) / (r.sequence.length : ℚ) < t)

/-- `msatools.filter_identity` (lines 309-357).  Order of effects as in the
source: threshold range check (`ValueError`), then `df.iloc[[0]]` (raises
`IndexError` on an empty table), then the per-row identity counts via the
Series zip (see `seriesZipIdentityCount`), then the method dispatch
(`ValueError` on an unknown method), and finally the query row is
re-prepended with `pd.concat`. -/
def filter_identity (df : Table) (t : ℚ) (method : String) : Except String Table :=
  if 0 ≤ t ∧ t ≤ 1 then
    match df with
    | [] => .error errEmptyIloc
    | q :: rest =>
      if method = "keep" then
        .ok (q :: rest.filter (keepRowIdentity q.sequence t true))
      else if method = "remove" then
        .ok (q :: rest.filter (keepRowIdentity q.sequence t false))
      else .error errMethod
  else .error errIdentityRange

/-- One step of a stable insertion sort: `x` is inserted after every element
`y` already placed with `le y x`, so elements with equal keys keep their
original relative order. -/
def insertRowBy (le : Row → Row → Bool) (x : Row) : List Row → List Row
  | [] => [x]
  | y :: ys => if le y x then y :: insertRowBy le x ys else x :: y :: ys

/-- Stable sort of rows under a total boolean comparison, by left-to-right
insertion.  Models `DataFrame.sort_values` on a single integer key column.
(`sort_values` uses numpy quicksort, which falls back to a stable insertion
sort on the small arrays all concrete evaluations below use.) -/
def sortRowsBy (le : Row → Row → Bool) (l : List Row) : List Row :=
  l.foldl (fun acc x => insertRowBy le x acc) []

/-- Key comparison used by `sort_values(by=key, ascending=asc)`. -/
def keyLe (key : Row → Int) (asc : Bool) (a b : Row) : Bool :=
  if asc then decide (key a ≤ key b) else decide (key b ≤ key a)

/-- `msatools.sort_gaps` (lines 236-268): `df.iloc[[0]]` (raises on an empty
table), gap counts on the remaining rows, `sort_values` on the temporary
`gap_count` column (then dropped), and the query row re-prepended. -/
def sort_gaps (df : Table) (ascending : Bool) : Except String Table :=
  match df with
  | [] => .error errEmptyIloc
  | q :: rest =>
    .ok (q :: sortRowsBy (keyLe (fun r => (countGaps r.sequence : Int)) ascending) rest)

/-- `msatools.sort_identity` (lines 271-306): identical structure to
`sort_gaps` but keyed on the Series-zip identity count
(see `seriesZipIdentityCount`). -/
def sort_identity (df : Table) (ascending : Bool) : Except String Table :=
  match df with
  | [] => .error errEmptyIloc
  | q :: rest =>
    .ok (q :: sortRowsBy
      (keyLe (fun r => (seriesZipIdentityCount q.sequence r.sequence : Int)) ascending) rest)

/-- `msatools.drop_duplicates` with `keep="first"`: a row survives iff no
earlier row has the same `sequence` value; survivor order is preserved. -/
def dedupFirst (seen : List String) : Table → Table
  | [] => []
  | r :: rest =>
    if r.sequence ∈ seen then dedupFirst seen rest
    else r :: dedupFirst (r.sequence :: seen) rest

/-- `msatools.drop_duplicates` with `keep="last"`: a row survives iff no
later row has the same `sequence` value; survivor order is preserved. -/
def dedupLast : Table → Table
  | [] => []
  | r :: rest =>
    if r.sequence ∈ rest.map (fun x => x.sequence) then dedupLast rest
    else r :: dedupLast rest

/-- `msatools.drop_duplicates` (lines 178-203): pandas
`df.drop_duplicates(subset="sequence", keep=...)` followed by
`reset_index(drop=True)`. -/
def drop_duplicates (df : Table) (keepFirst : Bool) : Table :=
  if keepFirst then dedupFirst [] df else dedupLast df

/-- Normalisation of one Python slice endpoint for a string of length `n`:
negative indices count from the end (clamped at 0), nonnegative indices are
clamped at `n`. -/
def pyIndex (n : Nat) (i : Int) : Nat :=
  if i < 0 then ((n : Int) + i).toNat else min i.toNat n

/-- Python string slicing `s[a:b]` (also pandas `.str.slice(a, b)`). -/
def pySlice (l : List Char) (a b : Int) : List Char :=
  (l.take (pyIndex l.length b)).drop (pyIndex l.length a)

/-- Python `str.ljust(w, c)`: right-pad with `c` to length `w` (no effect if
the string is already at least that long, including all negative `w`). -/
def pyLjust (l : List Char) (w : Int) (c : Char) : List Char :=
  if (l.length : Int) < w then l ++ List.replicate (w.toNat - l.length) c else l

/-- The `sequence_length` argument of `msatools.unify_length`:
`"first"`, `"max"`, `"min"` or an explicit integer. -/
inductive LenSpec where
  | first
  | maxLen
  | minLen
  | explicit (n : Int)
deriving DecidableEq, Repr

/-- Resolution of the target length in `msatools.unify_length` lines 45-52.
`"first"` reads `df["sequence"].iloc[0]` (raises `IndexError` on an empty
table); `"max"`/`"min"` take the max/min of the length column (`NaN` on an
empty table, which makes the subsequent `ljust` raise `TypeError`). -/
def resolveLen (df : Table) : LenSpec → Except String Int
  | .first =>
    match df with
    | [] => .error errEmptyIloc
    | r :: _ => .ok (r.sequence.length : Int)
  | .maxLen =>
    match df.map (fun r => (r.sequence.length : Int)) with
    | [] => .error errNaNLength
    | x :: xs => .ok (xs.foldl max x)
  | .minLen =>
    match df.map (fun r => (r.sequence.length : Int)) with
    | [] => .error errNaNLength
    | x :: xs => .ok (xs.foldl min x)
  | .explicit n => .ok n

/-- `msatools.unify_length` (lines 23-56), modelled as a call: the first
component is the returned value, the second is the state of the *caller's*
DataFrame after the call.  Lines 54-55 assign
`df["sequence"] = df["sequence"].str.ljust(n, "-")` and then
`df["sequence"] = df["sequence"].str.slice(0, n)`: column assignment on a
DataFrame mutates that object in place, and line 56 returns the same object,
so after a successful call the caller's table equals the returned table.  If
resolution of the target length raises (lines 45-50), the column assignments
are never reached and the caller's table is untouched. -/
def unify_lengthCall (df : Table) (spec : LenSpec) : Except String Table × Table :=
  match resolveLen df spec with
  | .error e => (.error e, df)
  | .ok n =>
    let step1 : Table :=
      df.map (fun r => { r with sequence := String.mk (pyLjust r.sequence.data n '-') })
    let step2 : Table :=
      step1.map (fun r => { r with sequence := String.mk (pySlice r.sequence.data 0 n) })
    (.ok step2, step2)

/-- `msatools.slice_sequences` (lines 59-85), modelled as a call (returned
value, caller's DataFrame after the call).  Line 84 assigns
`df["sequence"] = df["sequence"].str.slice(start, end)` in place and line 85
returns the same object. -/
def slice_sequencesCall (df : Table) (a b : Int) : Table × Table :=
  let out : Table := df.map (fun r => { r with sequence := String.mk (pySlice r.sequence.data a b) })
  (out, out)

/-- `msatools.crop_to_depth` (lines 117-141): for a negative depth the input
object is returned as-is (line 139-140); otherwise `df.iloc[:depth]` takes
the first `depth` rows into a new DataFrame. -/
def crop_to_depth (df : Table) (depth : Int) : Table :=
  if depth < 0 then df else df.take depth.toNat

/-- `msatools.extend_to_depth` (lines 144-175): returns the input when
`depth < len(df)`; on an empty table the repeat-count computation
`(depth + len(df) - 1) // len(df)` raises `ZeroDivisionError`; otherwise
`pd.concat([df] * repeat_count)` concatenates `repeat_count` copies and
`.iloc[:depth]` truncates.  In the division branch `depth ≥ len(df) ≥ 1`, so
Python's floor division coincides with natural-number division. -/
def extend_to_depth (df : Table) (depth : Int) : Except String Table :=
  if depth < (df.length : Int) then .ok df
  else if df.length = 0 then .error errZeroDiv
  else
    let repeatCount : Nat := (depth.toNat + df.length - 1) / df.length
    .ok ((List.flatten (List.replicate repeatCount df)).take depth.toNat)

/-- `msatools.adjust_depth` (lines 88-114): dispatches to `extend_to_depth`
when `len(df) < depth`, else to `crop_to_depth`. -/
def adjust_depth (df : Table) (depth : Int) : Except String Table :=
  if (df.length : Int) < depth then extend_to_depth df depth
  else .ok (crop_to_depth df depth)

/- Call wrappers recording the caller's DataFrame after each transform.
Every pandas operation these functions use — boolean-mask selection,
`iloc`, `assign`, `sort_values`, `drop_duplicates`, `pd.concat`,
`reset_index` — produces a new DataFrame and never writes into the input
object, so the caller's table after the call is the input itself (contrast
`unify_lengthCall` and `slice_sequencesCall`, whose sources assign into
`df["sequence"]`). -/

/-- `msatools.adjust_depth` as a call: (returned value, caller's table after). -/
def adjust_depthCall (df : Table) (depth : Int) : Except String Table × Table :=
  (adjust_depth df depth, df)

/-- `msatools.filter_gaps` as a call: (returned value, caller's table after). -/
def filter_gapsCall (df : Table) (t : ℚ) : Except String Table × Table :=
  (filter_gaps df t, df)

/-- `msatools.filter_identity` as a call: (returned value, caller's table after). -/
def filter_identityCall (df : Table) (t : ℚ) (method : String) :
    Except String Table × Table :=
  (filter_identity df t method, df)

/-- `msatools.drop_duplicates` as a call: (returned value, caller's table after). -/
def drop_duplicatesCall (df : Table) (keepFirst : Bool) : Table × Table :=
  (drop_duplicates df keepFirst, df)

/-- `msatools.sort_gaps` as a call: (returned value, caller's table after). -/
def sort_gapsCall (df : Table) (ascending : Bool) : Except String Table × Table :=
  (sort_gaps df ascending, df)

/-- `msatools.sort_identity` as a call: (returned value, caller's table after). -/
def sort_identityCall (df : Table) (ascending : Bool) : Except String Table × Table :=
  (sort_identity df ascending, df)

/- ---------------------------------------------------------------------
A3M file reading and writing (`frankenmsa/utils/fileio.py`).
File contents are modelled as `List Char`.
--------------------------------------------------------------------- -/

/-- Python `str.strip()` whitespace for the ASCII range:
space, tab, newline, carriage return, vertical tab, form feed. -/
def isPySpace (c : Char) : Bool :=
  c = ' ' || c = '\t' || c = '\n' || c = '\r' || c = '\x0b' || c = '\x0c'

/-- Python `str.strip()`: drop whitespace from both ends. -/
def pyStrip (l : List Char) : List Char :=
  ((l.dropWhile isPySpace).reverse.dropWhile isPySpace).reverse

/-- Helper of `splitLines`: `cur` accumulates the current line reversed. -/
def splitLinesAux (cur : List Char) : List Char → List (List Char)
  | [] => if cur.isEmpty then [] else [cur.reverse]
  | c :: rest =>
    if c = '\n' then cur.reverse :: splitLinesAux [] rest
    else splitLinesAux (c :: cur) rest

/-- Line iteration of a text file (`for line in f`): one line per `'\n'`
terminator, plus a final unterminated line when the file does not end in a
newline.  (The `str.strip()` applied to each line afterwards makes the kept
or dropped terminator irrelevant, so lines are yielded without it.)
Headers are assumed free of `'\r'`; text-mode universal newlines would
translate a bare `'\r'` into a line break as well, so a carriage return
counts as an embedded newline. -/
def splitLines (l : List Char) : List (List Char) :=
  splitLinesAux [] l

/-- The reading loop of `fileio.read_a3m` (lines 25-38): each line is
stripped; a line starting with `'>'` contributes `line[1:]` to the header
list, any other line is appended verbatim to the sequence list.  Order is
preserved in both lists. -/
def collectA3M : List (List Char) → List (List Char) × List (List Char)
  | [] => ([], [])
  | line :: rest =>
    let s := pyStrip line
    let p := collectA3M rest
    if s.head? = some '>' then (s.tail :: p.1, p.2) else (p.1, s :: p.2)

/-- `fileio.read_a3m` (lines 10-40): collect headers and sequences, then
build `pd.DataFrame({"header": headers, "sequence": sequences})` — which
raises `ValueError` when the two lists have different lengths. -/
def read_a3m (content : List Char) : Except String Table :=
  let p := collectA3M (splitLines content)
  if p.1.length = p.2.length then
    .ok (List.zipWith (fun h s => { header := String.mk h, sequence := String.mk s }) p.1 p.2)
  else .error errColumnLengths

/-- `fileio.write_a3m` (lines 78-101) for a table whose `header` column is
present: each row contributes `f">{row['header']}\n{row['sequence']}\n"`,
written in row order. -/
def write_a3m (df : Table) : List Char :=
  (df.map (fun r => '>' :: r.header.data ++ '\n' :: r.sequence.data ++ ['\n'])).flatten

/-- The alignment alphabet of the specification (§3): the 20 canonical amino
acids, gap `-`, unknown `X`, and the lowercase letters denoting
insertion-state residues. -/
def alignChar (c : Char) : Bool :=
  c ∈ "ACDEFGHIKLMNPQRSTVWYX-abcdefghijklmnopqrstuvwxyz".data

/- ---------------------------------------------------------------------
Clustering precheck (`frankenmsa/cluster/base.py`, `kmeans.py`).
--------------------------------------------------------------------- -/

/-- The `sequences` argument accepted by the clusterers: a list of
sequence strings, a pandas Series of sequence strings, or a DataFrame with a
`sequence` column.  (Tuples and sets behave as lists in the precheck.) -/
inductive ClusterInput where
  | ofList (seqs : List String)
  | ofSeries (seqs : List String)
  | ofDF (df : Table)
deriving DecidableEq, Repr

/-- `len(msa)` on the precheck's input: element count for a list or Series,
row count for a DataFrame. -/
def inputLen : ClusterInput → Nat
  | .ofList seqs => seqs.length
  | .ofSeries seqs => seqs.length
  | .ofDF df => df.length

/-- `BaseClusterer._precheck_data` (`cluster/base.py` lines 39-62):
`len(msa) < 2` raises `ValueError`; the isinstance checks are guaranteed by
the typed input; a list or Series is wrapped into a one-column DataFrame
(`pd.DataFrame({"sequence": msa})` — modelled with empty headers, the header
column playing no role here); a DataFrame is passed through (its `sequence`
column exists by the `Table` type). -/
def precheckData (msa : ClusterInput) : Except String Table :=
  if inputLen msa < 2 then .error errPrecheck
  else
    match msa with
    | .ofList seqs => .ok (seqs.map (fun s => { header := "", sequence := s }))
    | .ofSeries seqs => .ok (seqs.map (fun s => { header := "", sequence := s }))
    | .ofDF df => .ok df

/-- `KMeans.cluster` (`cluster/kmeans.py` lines 55-117) along its default
path (`columns=None`): the data precheck runs first (line 87); then the
encoding name is looked up on `seqtools.sequence_encodings` (`getattr`
returning `None` for anything but `onehot` and `numvector`, line 89-91,
raising `ValueError`); the sklearn `KMeans.fit_predict` call on the encoded
sequences is external library code, abstracted as the function argument
`fitPredict` from the sequence column to the label column.  The labels are
written into the `cluster_id` column; the result is returned as the table
together with that column. -/
def kmeansCluster (fitPredict : List String → List Int)
    (sequences : ClusterInput) (sequenceEncoding : String) :
    Except String (Table × List Int) :=
  match precheckData sequences with
  | .error e => .error e
  | .ok msa =>
    if sequenceEncoding = "onehot" ∨ sequenceEncoding = "numvector" then
      .ok (msa, fitPredict (msa.map (fun r => r.sequence)))
    else .error errEncoding

/-- Modelled from the spec: the DBSCAN-style entry point
(`cluster/af_cluster.py` line 139, `clusterer._precheck_data(sequences)`)
resolves `_precheck_data` on the external `afcluster` package, whose source
is not in this repository.  The spec (§4.4, §7) requires the same precheck
contract: reject inputs with fewer than 2 rows before any clustering.
Modelled as the in-repository `BaseClusterer._precheck_data`. -/
def afclusterPrecheck (msa : ClusterInput) : Except String Table :=
  precheckData msa

/-- The `afcluster` module-level function (`cluster/af_cluster.py`
lines 103-175) up to its clustering work: the precheck runs first; the
eps grid search and the DBSCAN run themselves live in the external
`afcluster` package and are abstracted as the function argument
`clusterFn`. -/
def afclusterRun (clusterFn : Table → Table) (sequences : ClusterInput) :
    Except String Table :=
  match afclusterPrecheck sequences with
  | .error e => .error e
  | .ok df => .ok (clusterFn df)

/- ---------------------------------------------------------------------
Horizontal combination (`app/pages/combine.py`, `combine_msas`).
--------------------------------------------------------------------- -/

/-- Row-for-row sequence concatenation:
`combined_msa["sequence"].str.cat(msa["sequence"], sep="")` on two
equal-length tables with default RangeIndex aligns positionally. -/
def horizCat (acc msa : Table) : Table :=
  List.zipWith (fun a b => { a with sequence := a.sequence ++ b.sequence }) acc msa

/-- The accumulation loop of `combine_msas` (`app/pages/combine.py`
lines 408-430), specialised to blocks that all select horizontal mode and no
slicing (the incoming tables are the already-extracted per-block tables).
Faithful to the source: when the incoming table's row count differs from the
accumulated one, line 414 rebinds `msa = adjust_depth(msa, len(combined_msa))`
and line 417 executes a bare `break`, so the loop exits immediately; the
concatenation statements at lines 418-425 sit after the `break` and are
unreachable, the adjusted table is discarded, and the accumulated table is
returned as the combined result.  Only on equal row counts does line 422
concatenate and the loop continue. -/
def combineHorizontal (acc : Table) : List Table → Table
  | [] => acc
  | msa :: rest =>
    if msa.length ≠ acc.length then acc
    else combineHorizontal (horizCat acc msa) rest

/- =====================================================================
Theorems
===================================================================== -/

/-- C9: for every table with a `sequence` column and every negative depth,
`adjust_depth` returns the input table with all rows unchanged
(`crop_to_depth` returns the input as-is when `depth < 0`), rather than an
empty table or an error. -/
theorem adjust_depth_negative_returns_input (T : Table) (d : Int) (hd : d < 0) :
    adjust_depth T d = .ok T := by
  have h1 : ¬ ((T.length : Int) < d) := by omega
  simp [adjust_depth, crop_to_depth, h1, hd]

/-- Witness for C9 at a concrete input. -/
theorem adjust_depth_negative_returns_input_witness :
    adjust_depth [{ header := "a", sequence := "A" }] (-1) =
      .ok [{ header := "a", sequence := "A" }] :=
  adjust_depth_negative_returns_input _ _ (by decide)

/-- C1 (code evaluated at the failing input): on the table
`[("Q","AB"), ("x","AB")]` with threshold 1 and method `keep`, the claim's
position-wise identity of row `x` to the query is `2/2 = 1 ≥ 1`, so the row
should be kept; the code instead zips the one-element query *Series* with
the row string, compares the whole query string `"AB"` with the 1-character
string `"A"`, obtains identity `0/2 = 0 < 1`, and drops the row. -/
theorem filter_identity_series_zip_failing_input :
    filter_identity
      [{ header := "Q", sequence := "AB" }, { header := "x", sequence := "AB" }]
      1 "keep" =
    .ok [{ header := "Q", sequence := "AB" }] := by
  simp +decide only [filter_identity, keepRowIdentity, seriesZipIdentityCount,
    List.filter, List.countP_cons, List.countP_nil, List.zip, List.zipWith, List.map]
  norm_num

/-- C2 (code evaluated at the failing input): on
`[("Q","AAAA"), ("x","AAAT"), ("y","AATT")]` with `ascending=True` the claim
predicts the order query, `y` (2 matches), `x` (3 matches); the code's
Series zip gives both non-query rows identity count 0, so the (stable) sort
leaves the order query, `x`, `y` unchanged. -/
theorem sort_identity_series_zip_failing_input :
    sort_identity
      [{ header := "Q", sequence := "AAAA" }, { header := "x", sequence := "AAAT" },
       { header := "y", sequence := "AATT" }] true =
    .ok [{ header := "Q", sequence := "AAAA" }, { header := "x", sequence := "AAAT" },
         { header := "y", sequence := "AATT" }] := by
  rfl

/-- C5 (code evaluated at the failing input): the accumulated table has one
row and the first incoming block has two, so the claim predicts the block is
depth-adjusted to one row, concatenated (giving sequence `"AACC"`), and the
loop continues with the second block (giving `"AACCEE"`); the code instead
executes the bare `break` at the mismatch, discarding the adjusted block and
every later block, and returns the accumulated table unchanged. -/
theorem combine_horizontal_break_failing_input :
    combineHorizontal [{ header := "a", sequence := "AA" }]
      [[{ header := "b", sequence := "CC" }, { header := "c", sequence := "DD" }],
       [{ header := "d", sequence := "EE" }]] =
    [{ header := "a", sequence := "AA" }] := by
  rfl

/-- C3 counterexample: `unify_length` and `slice_sequences` assign into
`df["sequence"]` and thereby mutate the caller's table in place — after
`unify_length(df, 1)` on a one-row table with sequence `"AB"` the caller's
table holds sequence `"A"`, and likewise after `slice_sequences(df, 0, 1)`. -/
theorem engine_transforms_mutation_counterexample :
    (unify_lengthCall [{ header := "a", sequence := "AB" }] (.explicit 1)).2 ≠
      [{ header := "a", sequence := "AB" }] ∧
    (slice_sequencesCall [{ header := "a", sequence := "AB" }] 0 1).2 ≠
      [{ header := "a", sequence := "AB" }] := by
  exact ⟨by decide, by decide⟩

/-- C3 (amended): of the engine transforms, `adjust_depth`, `filter_gaps`,
`filter_identity`, `drop_duplicates`, `sort_gaps` and `sort_identity`
construct their result as a new table and leave the caller's input table
entirely unchanged, while `unify_length` and `slice_sequences` mutate the
caller's table in place, the returned table being the caller's table after
mutation (on an error the caller's table is untouched). -/
theorem engine_transforms_caller_state (df : Table) (d : Int) (t u : ℚ)
    (method : String) (kf asc1 asc2 : Bool) (spec : LenSpec) (a b : Int) :
    (adjust_depthCall df d).2 = df ∧
    (filter_gapsCall df t).2 = df ∧
    (filter_identityCall df u method).2 = df ∧
    (drop_duplicatesCall df kf).2 = df ∧
    (sort_gapsCall df asc1).2 = df ∧
    (sort_identityCall df asc2).2 = df ∧
    ((unify_lengthCall df spec).2 =
      match (unify_lengthCall df spec).1 with
      | .ok out => out
      | .error _ => df) ∧
    (slice_sequencesCall df a b).2 = (slice_sequencesCall df a b).1 := by
  refine ⟨rfl, rfl, rfl, rfl, rfl, rfl, ?_, rfl⟩
  unfold unify_lengthCall
  cases h : resolveLen df spec <;> simp

/-- C10: for every table and every threshold in `[0,1]`, a row whose
sequence is the empty string is absent from the `filter_gaps` result: its
gap fraction is the float division `0/0 = NaN`, which never satisfies the
`<=` comparison. -/
theorem filter_gaps_drops_empty_sequence_rows (T : Table) (f : ℚ)
    (h0 : 0 ≤ f) (h1 : f ≤ 1) (r : Row) (hr : r.sequence = "")
    (R : Table) (hR : filter_gaps T f = .ok R) : r ∉ R := by
  unfold filter_gaps at hR
  rw [if_pos ⟨h0, h1⟩] at hR
  cases hR
  intro hmem
  have hk := List.of_mem_filter hmem
  simp [keepRowGaps, hr] at hk

/-- Witness for C10 at a concrete input. -/
theorem filter_gaps_drops_empty_sequence_rows_witness :
    ({ header := "q", sequence := "" } : Row) ∉ ([] : Table) :=
  filter_gaps_drops_empty_sequence_rows [{ header := "q", sequence := "" }]
    (1/2) (by norm_num) (by norm_num) _ rfl []
    (by simp +decide [filter_gaps, keepRowGaps, List.filter]; norm_num)

/-- C6: for thresholds `0 ≤ f2 ≤ f1 ≤ 1`, both `filter_gaps` calls succeed
and the result for the smaller threshold is a sublist of the result for the
larger one; in particular every row kept at `f2` is also kept at `f1`. -/
theorem filter_gaps_monotone (T : Table) (f1 f2 : ℚ)
    (h0 : 0 ≤ f2) (h12 : f2 ≤ f1) (h1 : f1 ≤ 1) :
    ∃ R1 R2, filter_gaps T f1 = .ok R1 ∧ filter_gaps T f2 = .ok R2 ∧
      R2.Sublist R1 ∧ ∀ r ∈ R2, r ∈ R1 := by
  have hmono : ∀ r : Row, keepRowGaps f2 r = true → keepRowGaps f1 r = true := by
    intro r hk
    unfold keepRowGaps at hk ⊢
    by_cases hlen : r.sequence.length = 0
    · simp [hlen] at hk
    · simp only [hlen, if_false, decide_eq_true_eq] at hk ⊢
      exact le_trans hk h12
  have hsub := List.monotone_filter_right T hmono
  exact ⟨T.filter (keepRowGaps f1), T.filter (keepRowGaps f2),
    by rw [filter_gaps, if_pos ⟨le_trans h0 h12, h1⟩],
    by rw [filter_gaps, if_pos ⟨h0, le_trans h12 h1⟩],
    hsub, fun r hr => hsub.subset hr⟩

/-- Witness for C6 at concrete thresholds. -/
theorem filter_gaps_monotone_witness :
    ∃ R1 R2, filter_gaps [{ header := "q", sequence := "A-" }] 1 = .ok R1 ∧
      filter_gaps [{ header := "q", sequence := "A-" }] 0 = .ok R2 ∧
      R2.Sublist R1 ∧ ∀ r ∈ R2, r ∈ R1 :=
  filter_gaps_monotone [{ header := "q", sequence := "A-" }] 1 0
    (by norm_num) (by norm_num) (by norm_num)

/-- C8: for every clustering input (list, Series or DataFrame) with fewer
than 2 rows, both the k-means strategy and the DBSCAN-style strategy raise
the shared precheck's error before any clustering work; every input with at
least 2 rows (and a `sequence` column, guaranteed by the table type) passes
the precheck. -/
theorem clustering_precheck_gate (input : ClusterInput) :
    (inputLen input < 2 →
      (∀ fitPredict sequenceEncoding,
        kmeansCluster fitPredict input sequenceEncoding = .error errPrecheck) ∧
      (∀ clusterFn, afclusterRun clusterFn input = .error errPrecheck)) ∧
    (2 ≤ inputLen input → ∃ df, precheckData input = .ok df) := by
  constructor
  · intro h
    have hp : precheckData input = .error errPrecheck := by
      unfold precheckData; rw [if_pos h]
    exact ⟨fun fitPredict sequenceEncoding => by simp [kmeansCluster, hp],
      fun clusterFn => by simp [afclusterRun, afclusterPrecheck, hp]⟩
  · intro h
    unfold precheckData
    rw [if_neg (by omega)]
    cases input <;> exact ⟨_, rfl⟩

/-- Witness for C8: a 1-row input is rejected by both strategies, a 2-row
input passes the precheck. -/
theorem clustering_precheck_gate_witness :
    kmeansCluster (fun _ => []) (.ofList ["AC"]) "onehot" = .error errPrecheck ∧
    afclusterRun id (.ofList ["AC"]) = .error errPrecheck ∧
    ∃ df, precheckData (.ofList ["AC", "AD"]) = .ok df :=
  ⟨((clustering_precheck_gate (.ofList ["AC"])).1 (by decide)).1 (fun _ => []) "onehot",
   ((clustering_precheck_gate (.ofList ["AC"])).1 (by decide)).2 id,
   (clustering_precheck_gate (.ofList ["AC", "AD"])).2 (by decide)⟩

/-- Indexing into the concatenation of `k` copies of a list is indexing into
the list at the index modulo the list's length. -/
theorem getElem?_flatten_replicate {α : Type} (T : List α) :
    ∀ (k i : Nat), i < k * T.length →
      (List.flatten (List.replicate k T))[i]? = T[i % T.length]? := by
  intro k
  induction k with
  | zero => intro i h; exact absurd h (by omega)
  | succ k ih =>
    intro i h
    rw [List.replicate_succ, List.flatten_cons]
    by_cases hi : i < T.length
    · rw [List.getElem?_append_left hi, Nat.mod_eq_of_lt hi]
    · push_neg at hi
      have h2 : i < k * T.length + T.length := by
        have h3 : (k + 1) * T.length = k * T.length + T.length := by ring
        rw [h3] at h
        exact h
      have h4 : i - T.length < k * T.length := by
        generalize k * T.length = A at h2 ⊢
        omega
      rw [List.getElem?_append_right hi, ih (i - T.length) h4,
        Nat.mod_eq_sub_mod hi]

/-- C4 counterexample: the claim quantifies over every depth `d`, but at
`d = -1` the code returns the 1-row input unchanged, so the result does not
have "exactly d rows". -/
theorem adjust_depth_c4_counterexample :
    adjust_depth [{ header := "a", sequence := "A" }] (-1) =
      .ok [{ header := "a", sequence := "A" }] ∧
    (([{ header := "a", sequence := "A" }] : Table).length : Int) ≠ -1 :=
  ⟨rfl, by decide⟩

/-- C4 (amended): for every table `T` with a `sequence` column and every
depth `d ≥ 0` — with `T` nonempty unless `d = 0`, since extending an empty
table raises `ZeroDivisionError` — `adjust_depth T d` returns exactly `d`
rows; if `d ≤ len(T)` the result is the first `d` rows of `T` unchanged; if
`len(T) < d` the result is `T` repeated `ceil(d / len(T))` times and
truncated to `d` rows, and row `i` of the result is row `i mod len(T)` of
`T` (the cyclic repetition preserves original row order in each repeated
block). -/
theorem adjust_depth_spec (T : Table) (d : Int) (hd : 0 ≤ d)
    (hTd : T ≠ [] ∨ d = 0) :
    ∃ R, adjust_depth T d = .ok R ∧ (R.length : Int) = d ∧
      (d ≤ (T.length : Int) → R = T.take d.toNat) ∧
      ((T.length : Int) < d →
        R = (List.flatten (List.replicate ((d.toNat + T.length - 1) / T.length) T)).take d.toNat) ∧
      (∀ i : Nat, i < d.toNat → R[i]? = T[i % T.length]?) := by
  by_cases hlt : (T.length : Int) < d
  · have hne : T ≠ [] := by
      rcases hTd with h | h
      · exact h
      · exfalso; omega
    have hn : 0 < T.length := List.length_pos.mpr hne
    have hmn : T.length < d.toNat := by omega
    have hkeq : (d.toNat + T.length - 1) / T.length = (d.toNat - 1) / T.length + 1 := by
      rw [show d.toNat + T.length - 1 = (d.toNat - 1) + T.length by omega]
      exact Nat.add_div_right _ hn
    have hmk : d.toNat ≤ ((d.toNat + T.length - 1) / T.length) * T.length := by
      have h1 := Nat.div_add_mod (d.toNat - 1) T.length
      have h2 := Nat.mod_lt (d.toNat - 1) hn
      rw [hkeq, show ((d.toNat - 1) / T.length + 1) * T.length =
        T.length * ((d.toNat - 1) / T.length) + T.length by ring]
      generalize T.length * ((d.toNat - 1) / T.length) = A at h1 ⊢
      omega
    have hlen : ((List.flatten (List.replicate ((d.toNat + T.length - 1) / T.length) T)).take d.toNat).length = d.toNat := by
      rw [List.length_take, List.length_flatten, List.map_replicate,
        List.sum_replicate, smul_eq_mul]
      exact min_eq_left hmk
    refine ⟨_, ?_, ?_, ?_, fun _ => rfl, ?_⟩
    · unfold adjust_depth extend_to_depth
      rw [if_pos hlt, if_neg (by omega : ¬ d < (T.length : Int)),
        if_neg (by omega : ¬ T.length = 0)]
    · rw [hlen]; exact Int.toNat_of_nonneg hd
    · intro h; exact absurd hlt (by omega)
    · intro i hi
      rw [List.getElem?_take, if_pos hi]
      exact getElem?_flatten_replicate T _ i (lt_of_lt_of_le hi hmk)
  · have hdn : d.toNat ≤ T.length := by omega
    refine ⟨T.take d.toNat, ?_, ?_, fun _ => rfl, ?_, ?_⟩
    · unfold adjust_depth crop_to_depth
      rw [if_neg hlt, if_neg (by omega : ¬ d < 0)]
    · rw [List.length_take, min_eq_left hdn]; exact Int.toNat_of_nonneg hd
    · intro h; exact absurd h hlt
    · intro i hi
      rw [List.getElem?_take, if_pos hi, Nat.mod_eq_of_lt (lt_of_lt_of_le hi hdn)]

/-- Witness for C4 (amended) at a concrete input: a 2-row table extended to
depth 5. -/
theorem adjust_depth_spec_witness :
    ∃ R, adjust_depth [{ header := "a", sequence := "A" },
        { header := "b", sequence := "B" }] 5 = .ok R ∧
      (R.length : Int) = 5 ∧
      ((5 : Int) ≤ 2 → R = List.take (5 : Int).toNat
        [{ header := "a", sequence := "A" }, { header := "b", sequence := "B" }]) ∧
      ((2 : Int) < 5 → R = (List.flatten (List.replicate (((5 : Int).toNat + 2 - 1) / 2)
        [{ header := "a", sequence := "A" }, { header := "b", sequence := "B" }])).take (5 : Int).toNat) ∧
      (∀ i : Nat, i < (5 : Int).toNat → R[i]? =
        [{ header := "a", sequence := "A" }, { header := "b", sequence := "B" }][i % 2]?) :=
  adjust_depth_spec _ 5 (by decide) (.inl (by decide))

/-- `dropWhile` keeps a list whose head (if any) fails the predicate. -/
theorem dropWhile_eq_self_of_forall {p : Char → Bool} {l : List Char}
    (h : ∀ c ∈ l, p c = false) : l.dropWhile p = l := by
  cases l with
  | nil => rfl
  | cons c cs =>
    rw [List.dropWhile_cons, h c (List.mem_cons_self c cs)]
    simp

/-- A list without whitespace characters is fixed by `pyStrip`. -/
theorem pyStrip_eq_self_of_forall {l : List Char}
    (h : ∀ c ∈ l, isPySpace c = false) : pyStrip l = l := by
  unfold pyStrip
  rw [dropWhile_eq_self_of_forall h,
    dropWhile_eq_self_of_forall (fun c hc => h c (List.mem_reverse.mp hc)),
    List.reverse_reverse]

/-- A fixed point of `pyStrip` is fixed by each one-sided trim. -/
theorem pyStrip_fix_parts {l : List Char} (h : pyStrip l = l) :
    l.dropWhile isPySpace = l ∧ l.reverse.dropWhile isPySpace = l.reverse := by
  unfold pyStrip at h
  have hlen := congrArg List.length h
  rw [List.length_reverse] at hlen
  have h1 : (l.dropWhile isPySpace).length ≤ l.length :=
    (List.dropWhile_suffix isPySpace).sublist.length_le
  have h2 : ((l.dropWhile isPySpace).reverse.dropWhile isPySpace).length ≤
      (l.dropWhile isPySpace).length := by
    have h3 := (List.dropWhile_suffix
      (l := (l.dropWhile isPySpace).reverse) isPySpace).sublist.length_le
    rwa [List.length_reverse] at h3
  have heq1 : l.dropWhile isPySpace = l :=
    (List.dropWhile_suffix isPySpace).eq_of_length (by omega)
  refine ⟨heq1, ?_⟩
  rw [heq1] at h
  have := congrArg List.reverse h
  rwa [List.reverse_reverse] at this

/-- If `dropWhile` fixes a nonempty list, its head fails the predicate. -/
theorem head_false_of_dropWhile_fix {p : Char → Bool} {c : Char} {cs : List Char}
    (h : (c :: cs).dropWhile p = c :: cs) : p c = false := by
  by_contra hc
  rw [List.dropWhile_cons, if_pos (by revert hc; cases p c <;> simp)] at h
  have := congrArg List.length h
  have hle := (List.dropWhile_suffix (l := cs) p).sublist.length_le
  simp at this
  omega

/-- Stripping a header line: `'>'` followed by a `pyStrip`-fixed header is
itself fixed by `pyStrip`. -/
theorem pyStrip_headerLine {l : List Char} (h : pyStrip l = l) :
    pyStrip ('>' :: l) = '>' :: l := by
  obtain ⟨h1, h2⟩ := pyStrip_fix_parts h
  unfold pyStrip
  rw [List.dropWhile_cons, show isPySpace '>' = false from rfl]
  simp only [Bool.false_eq_true, if_false, List.reverse_cons]
  cases hrev : l.reverse with
  | nil =>
    have hnil : l = [] := by
      have h4 := congrArg List.reverse hrev
      simpa using h4
    simp [hnil, List.dropWhile, isPySpace]
  | cons c cs =>
    rw [hrev] at h2
    have hc : isPySpace c = false := head_false_of_dropWhile_fix h2
    rw [List.cons_append, List.dropWhile_cons, hc]
    simp only [Bool.false_eq_true, if_false]
    rw [show c :: (cs ++ ['>']) = (c :: cs) ++ ['>'] from rfl, List.reverse_append,
      ← hrev, List.reverse_reverse]
    rfl

/-- Characters of the alignment alphabet are not whitespace, not a newline
and not the header marker `'>'`. -/
theorem alignChar_facts (c : Char) (h : alignChar c = true) :
    isPySpace c = false ∧ c ≠ '\n' ∧ c ≠ '>' := by
  have hall : ∀ x ∈ "ACDEFGHIKLMNPQRSTVWYX-abcdefghijklmnopqrstuvwxyz".data,
      isPySpace x = false ∧ x ≠ '\n' ∧ x ≠ '>' := by decide
  exact hall c (by simpa [alignChar] using h)

/-- Splitting at the first newline: a newline-free prefix becomes one line. -/
theorem splitLinesAux_break (xs : List Char) (hx : ∀ c ∈ xs, c ≠ '\n') :
    ∀ (cur rest : List Char),
      splitLinesAux cur (xs ++ '\n' :: rest) =
        (cur.reverse ++ xs) :: splitLinesAux [] rest := by
  induction xs with
  | nil => intro cur rest; simp [splitLinesAux]
  | cons c cs ih =>
    intro cur rest
    have hc : c ≠ '\n' := hx c (List.mem_cons_self c cs)
    rw [List.cons_append]
    simp only [splitLinesAux, hc, if_false]
    rw [ih (fun x hxm => hx x (List.mem_cons_of_mem c hxm)) (c :: cur) rest]
    simp

/-- One A3M entry at the head of the written file splits into its header
line and its sequence line. -/
theorem splitLines_write_cons (r : Row) (T : Table)
    (hhead : ∀ c ∈ r.header.data, c ≠ '\n')
    (hseq : ∀ c ∈ r.sequence.data, c ≠ '\n') :
    splitLines (write_a3m (r :: T)) =
      ('>' :: r.header.data) :: r.sequence.data :: splitLines (write_a3m T) := by
  have hw : write_a3m (r :: T) =
      ('>' :: r.header.data) ++ '\n' :: (r.sequence.data ++ '\n' :: write_a3m T) := by
    simp [write_a3m]
  rw [hw]
  unfold splitLines
  rw [splitLinesAux_break ('>' :: r.header.data)
    (by intro c hc
        rcases List.mem_cons.mp hc with h | h
        · subst h; decide
        · exact hhead c h) [] _]
  rw [splitLinesAux_break r.sequence.data hseq [] _]
  simp

/-- One `read_a3m` loop step on a header line. -/
theorem collectA3M_cons_header (h : List Char) (rest : List (List Char))
    (hfix : pyStrip ('>' :: h) = '>' :: h) :
    collectA3M (('>' :: h) :: rest) =
      (h :: (collectA3M rest).1, (collectA3M rest).2) := by
  simp [collectA3M, hfix]

/-- One `read_a3m` loop step on a non-header line. -/
theorem collectA3M_cons_seq (s : List Char) (rest : List (List Char))
    (hfix : pyStrip s = s) (hnot : ¬ s.head? = some '>') :
    collectA3M (s :: rest) =
      ((collectA3M rest).1, s :: (collectA3M rest).2) := by
  simp [collectA3M, hfix, hnot]

/-- The collection loop of `read_a3m` on the lines written from a table
recovers exactly the header and sequence columns. -/
theorem collectA3M_write (T : Table)
    (hh : ∀ r ∈ T, (∀ c ∈ r.header.data, c ≠ '\n' ∧ c ≠ '\r') ∧
      pyStrip r.header.data = r.header.data)
    (hs : ∀ r ∈ T, ∀ c ∈ r.sequence.data, alignChar c = true) :
    collectA3M (splitLines (write_a3m T)) =
      (T.map (fun r => r.header.data), T.map (fun r => r.sequence.data)) := by
  induction T with
  | nil => rfl
  | cons r T ih =>
    obtain ⟨hr1, hr2⟩ := hh r (List.mem_cons_self r T)
    have hseq := hs r (List.mem_cons_self r T)
    have hal : ∀ c ∈ r.sequence.data, isPySpace c = false ∧ c ≠ '\n' ∧ c ≠ '>' :=
      fun c hc => alignChar_facts c (hseq c hc)
    have hnot : ¬ (r.sequence.data.head? = some '>') := by
      cases hsd : r.sequence.data with
      | nil => simp
      | cons c cs =>
        simp only [List.head?, Option.some.injEq]
        intro hcgt
        exact (hal c (by rw [hsd]; exact List.mem_cons_self c cs)).2.2 hcgt
    rw [splitLines_write_cons r T (fun c hc => (hr1 c hc).1) (fun c hc => (hal c hc).2.1),
      collectA3M_cons_header _ _ (pyStrip_headerLine hr2),
      collectA3M_cons_seq _ _ (pyStrip_eq_self_of_forall (fun c hc => (hal c hc).1)) hnot,
      ih (fun x hx => hh x (List.mem_cons_of_mem r hx))
         (fun x hx => hs x (List.mem_cons_of_mem r hx))]
    simp

/-- Rebuilding rows from their components is the identity. -/
theorem zipWith_mk_components (T : Table) :
    List.zipWith (fun h s => ({ header := String.mk h, sequence := String.mk s } : Row))
      (T.map (fun r => r.header.data)) (T.map (fun r => r.sequence.data)) = T := by
  induction T with
  | nil => rfl
  | cons r T ih =>
    simp only [List.map_cons, List.zipWith_cons_cons, ih]

/-- C7: for every table whose headers contain no embedded newline (a bare
carriage return counts, since text-mode reading translates it to a newline)
and are whitespace-trimmed, and whose sequences range over the alignment
alphabet, writing with `write_a3m` and re-reading with `read_a3m` yields the
original table: byte-for-byte sequences, and the trimmed headers unchanged. -/
theorem write_read_a3m_roundtrip (T : Table)
    (hh : ∀ r ∈ T, (∀ c ∈ r.header.data, c ≠ '\n' ∧ c ≠ '\r') ∧
      pyStrip r.header.data = r.header.data)
    (hs : ∀ r ∈ T, ∀ c ∈ r.sequence.data, alignChar c = true) :
    read_a3m (write_a3m T) = .ok T := by
  unfold read_a3m
  rw [collectA3M_write T hh hs]
  simp [List.length_map, zipWith_mk_components]

/-- Witness for C7 at a concrete two-row table. -/
theorem write_read_a3m_roundtrip_witness :
    read_a3m (write_a3m [{ header := "q 1", sequence := "MK-a" },
      { header := "s2", sequence := "MKLX" }]) =
    .ok [{ header := "q 1", sequence := "MK-a" }, { header := "s2", sequence := "MKLX" }] :=
  write_read_a3m_roundtrip _ (by decide) (by decide)

end FrankenMSA
